import Mathlib

/-!
Verification development for the ctru-rs subset: the framebuffer rotation
transform of examples/camera-image.rs, the service-handle lifecycle of
services/hid.rs, services/apt.rs and services/mcuhwc.rs, and the KeyPad
bitflag set with its edge-detection queries.

Byte memories (the source slice and the destination framebuffer) are
modelled as total functions from byte offsets to byte values; machine
integers are Nat, with masking made explicit where the code masks.
-/

/-! ## Framebuffer rotation transform (examples/camera-image.rs) -/

/-- Screen width constant WIDTH from examples/camera-image.rs. -/
def WIDTH : Nat := 400

/-- Screen height constant HEIGHT from examples/camera-image.rs. -/
def HEIGHT : Nat := 240

/-- Buffer size constant BUF_SIZE from examples/camera-image.rs: two bytes
per RGB565 pixel. -/
def BUF_SIZE : Nat := WIDTH * HEIGHT * 2

/-- One iteration of the inner loop body of rotate_image_to_screen
(examples/camera-image.rs, lines 111 to 131): for the source pixel at row j,
column i, compute draw_y, draw_x, read_index and draw_index exactly as the
code does, and copy the 2 bytes at read_index to draw_index in the
framebuffer. -/
def writePixel (src : Nat → Nat) (width height j i : Nat) (fb : Nat → Nat) : Nat → Nat :=
  let draw_y := (height - 1) - j
  let draw_x := i
  let read_index := (j * width + i) * 2
  let draw_index := (draw_x * height + draw_y) * 2
  fun a =>
    if a = draw_index then src read_index
    else if a = draw_index + 1 then src (read_index + 1)
    else fb a

/-- The inner loop of rotate_image_to_screen over i in 0..n, generalised over
the loop bound n for induction; the real loop runs with n = width. -/
def innerLoopN (src : Nat → Nat) (width height j n : Nat) (fb : Nat → Nat) : Nat → Nat :=
  (List.range n).foldl (fun fb i => writePixel src width height j i fb) fb

/-- The outer loop of rotate_image_to_screen over j in 0..n, generalised over
the loop bound n for induction; the real loop runs with n = height. -/
def outerLoopN (src : Nat → Nat) (width height n : Nat) (fb : Nat → Nat) : Nat → Nat :=
  (List.range n).foldl (fun fb j => innerLoopN src width height j width fb) fb

/-- Embedding of rotate_image_to_screen (examples/camera-image.rs, lines 110
to 133): the nested loops over j in 0..height and i in 0..width, each
iteration copying one 2-byte pixel into the framebuffer. -/
def rotate_image_to_screen (src : Nat → Nat) (framebuf : Nat → Nat) (width height : Nat) :
    Nat → Nat :=
  (List.range height).foldl
    (fun fb j => (List.range width).foldl (fun fb i => writePixel src width height j i fb) fb)
    framebuf

/-- The destination pixel index computed by the loop body: draw_x * height
plus draw_y. -/
def destPix (height j i : Nat) : Nat := i * height + ((height - 1) - j)

/-- The source pixel index read by the loop body. -/
def srcPix (width j i : Nat) : Nat := j * width + i

theorem rotate_eq_outerLoopN (src framebuf : Nat → Nat) (width height : Nat) :
    rotate_image_to_screen src framebuf width height =
      outerLoopN src width height height framebuf := rfl

theorem writePixel_apply (src : Nat → Nat) (width height j i : Nat) (fb : Nat → Nat) (a : Nat) :
    writePixel src width height j i fb a =
      if a = destPix height j i * 2 then src (srcPix width j i * 2)
      else if a = destPix height j i * 2 + 1 then src (srcPix width j i * 2 + 1)
      else fb a := rfl

/-- Quotient extraction: with a remainder below the divisor, division
recovers the quotient. -/
theorem mul_add_div_of_lt {height a b : Nat} (hb : b < height) :
    (a * height + b) / height = a := by
  have hpos : 0 < height := Nat.lt_of_le_of_lt (Nat.zero_le _) hb
  rw [Nat.mul_comm, Nat.mul_add_div hpos, Nat.div_eq_of_lt hb, Nat.add_zero]

/-- Injectivity of the destination pixel index over valid coordinates. -/
theorem destPix_inj {height j j' i i' : Nat} (hj : j < height) (hj' : j' < height)
    (h : destPix height j i = destPix height j' i') : i = i' ∧ j = j' := by
  have hb : (height - 1) - j < height := by omega
  have hb' : (height - 1) - j' < height := by omega
  have hi : i = i' := by
    have h1 := congrArg (· / height) h
    simpa [destPix, mul_add_div_of_lt hb, mul_add_div_of_lt hb'] using h1
  subst hi
  have h2 : (height - 1) - j = (height - 1) - j' := by
    unfold destPix at h
    exact Nat.add_left_cancel h
  exact ⟨rfl, by omega⟩

/-- A byte address touched by the write for pixel (j, i) is untouched by the
write for a different pixel (j', i'): pixel byte pairs are disjoint. -/
theorem write_addr_disjoint {height j j' i i' : Nat} (hj : j < height) (hj' : j' < height)
    (hne : ¬(i = i' ∧ j = j')) :
    destPix height j i * 2 ≠ destPix height j' i' * 2 ∧
    destPix height j i * 2 ≠ destPix height j' i' * 2 + 1 ∧
    destPix height j i * 2 + 1 ≠ destPix height j' i' * 2 ∧
    destPix height j i * 2 + 1 ≠ destPix height j' i' * 2 + 1 := by
  have hpix : destPix height j i ≠ destPix height j' i' := by
    intro h
    exact hne (destPix_inj hj hj' h)
  refine ⟨?_, ?_, ?_, ?_⟩ <;> omega

theorem innerLoopN_frame (src : Nat → Nat) (width height j : Nat) (fb : Nat → Nat)
    (n : Nat) (a : Nat)
    (ha : ∀ i, i < n → a ≠ destPix height j i * 2 ∧ a ≠ destPix height j i * 2 + 1) :
    innerLoopN src width height j n fb a = fb a := by
  induction n with
  | zero => rfl
  | succ n ih =>
    unfold innerLoopN
    rw [List.range_succ, List.foldl_append]
    show writePixel src width height j n (innerLoopN src width height j n fb) a = fb a
    rw [writePixel_apply]
    have hn := ha n (Nat.lt_succ_self n)
    rw [if_neg hn.1, if_neg hn.2]
    exact ih fun i hi => ha i (Nat.lt_succ_of_lt hi)

theorem innerLoopN_get (src : Nat → Nat) (width height j : Nat) (fb : Nat → Nat)
    (n i : Nat) (hi : i < n) (hj : j < height) :
    innerLoopN src width height j n fb (destPix height j i * 2) = src (srcPix width j i * 2) ∧
    innerLoopN src width height j n fb (destPix height j i * 2 + 1) =
      src (srcPix width j i * 2 + 1) := by
  induction n with
  | zero => exact absurd hi (Nat.not_lt_zero i)
  | succ n ih =>
    unfold innerLoopN
    rw [List.range_succ, List.foldl_append]
    show writePixel src width height j n (innerLoopN src width height j n fb) _ = _ ∧
      writePixel src width height j n (innerLoopN src width height j n fb) _ = _
    rcases Nat.lt_or_ge i n with hlt | hge
    · have hdisj := @write_addr_disjoint height j j i n hj hj (by omega)
      rw [writePixel_apply, writePixel_apply]
      rw [if_neg hdisj.1, if_neg hdisj.2.1, if_neg hdisj.2.2.1, if_neg hdisj.2.2.2]
      exact ih hlt
    · have hin : i = n := by omega
      subst hin
      rw [writePixel_apply, writePixel_apply]
      rw [if_pos rfl, if_neg (by omega), if_pos rfl]
      exact ⟨rfl, rfl⟩

theorem outerLoopN_get (src : Nat → Nat) (width height : Nat) (fb : Nat → Nat)
    (n j i : Nat) (hj : j < n) (hn : n ≤ height) (hi : i < width) :
    outerLoopN src width height n fb (destPix height j i * 2) = src (srcPix width j i * 2) ∧
    outerLoopN src width height n fb (destPix height j i * 2 + 1) =
      src (srcPix width j i * 2 + 1) := by
  induction n with
  | zero => exact absurd hj (Nat.not_lt_zero j)
  | succ n ih =>
    unfold outerLoopN
    rw [List.range_succ, List.foldl_append]
    show innerLoopN src width height n width (outerLoopN src width height n fb) _ = _ ∧
      innerLoopN src width height n width (outerLoopN src width height n fb) _ = _
    rcases Nat.lt_or_ge j n with hlt | hge
    · have hfr1 : innerLoopN src width height n width (outerLoopN src width height n fb)
          (destPix height j i * 2) = outerLoopN src width height n fb (destPix height j i * 2) := by
        refine innerLoopN_frame src width height n _ width _ fun i' hi' => ?_
        have hdisj := @write_addr_disjoint height j n i i' (by omega) (by omega) (by omega)
        exact ⟨hdisj.1, hdisj.2.1⟩
      have hfr2 : innerLoopN src width height n width (outerLoopN src width height n fb)
          (destPix height j i * 2 + 1) =
          outerLoopN src width height n fb (destPix height j i * 2 + 1) := by
        refine innerLoopN_frame src width height n _ width _ fun i' hi' => ?_
        have hdisj := @write_addr_disjoint height j n i i' (by omega) (by omega) (by omega)
        exact ⟨hdisj.2.2.1, hdisj.2.2.2⟩
      rw [hfr1, hfr2]
      exact ih hlt (by omega)
    · have hjn : j = n := by omega
      subst hjn
      exact innerLoopN_get src width height j (outerLoopN src width height j fb) width i hi
        (by omega)

/-- Central read characterisation of the rotation transform: the byte pair of
source pixel (row j, column i) lands at the rotated destination offsets. -/
theorem rotate_get (src framebuf : Nat → Nat) (width height j i : Nat)
    (hj : j < height) (hi : i < width) :
    rotate_image_to_screen src framebuf width height ((i * height + ((height - 1) - j)) * 2) =
      src ((j * width + i) * 2) ∧
    rotate_image_to_screen src framebuf width height ((i * height + ((height - 1) - j)) * 2 + 1) =
      src ((j * width + i) * 2 + 1) := by
  rw [rotate_eq_outerLoopN]
  exact outerLoopN_get src width height framebuf height j i hj (Nat.le_refl height) hi

/-- Claim C1: for every width and height and every source pixel at row j,
column i with j below height and i below width, the rotation transform places
the 2 bytes at source byte offset (j * width + i) * 2 at destination byte
offset (i * height + (height - 1 - j)) * 2; with width 400 and height 240 the
source byte pair at offset 0 is placed at destination offset 478. -/
theorem rotate_image_to_screen_offsets (src framebuf : Nat → Nat) (width height j i : Nat)
    (hj : j < height) (hi : i < width) :
    rotate_image_to_screen src framebuf width height ((i * height + ((height - 1) - j)) * 2) =
      src ((j * width + i) * 2) ∧
    rotate_image_to_screen src framebuf width height ((i * height + ((height - 1) - j)) * 2 + 1) =
      src ((j * width + i) * 2 + 1) ∧
    (0 * HEIGHT + ((HEIGHT - 1) - 0)) * 2 = 478 := by
  obtain ⟨h1, h2⟩ := rotate_get src framebuf width height j i hj hi
  exact ⟨h1, h2, rfl⟩

/-- Witness for claim C1: at width 400, height 240, source pixel (0, 0), the
transform places source byte 0 at destination byte offset 478. -/
theorem rotate_image_to_screen_offsets_witness :
    (0 : Nat) < 240 ∧ (0 : Nat) < 400 ∧
    rotate_image_to_screen (fun a => a + 7) (fun _ => 0) 400 240 478 = 7 := by
  refine ⟨by decide, by decide, ?_⟩
  have h := (rotate_image_to_screen_offsets (fun a => a + 7) (fun _ => 0) 400 240 0 0
    (by decide) (by decide)).1
  simpa using h

/-! ## Claim C2: the pixel index mapping is a bijection -/

/-- The pixel-index permutation performed by the transform, as a map on the
index space of width * height pixels: source pixel p (row p / width, column
p % width) is sent to its destination pixel index. -/
def pixPerm (width height : Nat) (p : Fin (width * height)) : Fin (width * height) :=
  ⟨destPix height (p.1 / width) (p.1 % width), by
    have hpos : 0 < width * height := Nat.lt_of_le_of_lt (Nat.zero_le _) p.2
    have hw : 0 < width := by
      rcases Nat.eq_zero_or_pos width with h | h
      · subst h; simp at hpos
      · exact h
    have hh : 0 < height := by
      rcases Nat.eq_zero_or_pos height with h | h
      · subst h; simp at hpos
      · exact h
    have hi : p.1 % width < width := Nat.mod_lt _ hw
    have h1 : (height - 1) - (p.1 / width) < height :=
      Nat.lt_of_le_of_lt (Nat.sub_le _ _) (Nat.sub_lt hh Nat.one_pos)
    unfold destPix
    calc (p.1 % width) * height + ((height - 1) - (p.1 / width))
        < (p.1 % width) * height + height := add_lt_add_left h1 _
      _ = (p.1 % width + 1) * height := by ring
      _ ≤ width * height := Nat.mul_le_mul_right height hi⟩

theorem pixPerm_val (width height : Nat) (p : Fin (width * height)) :
    (pixPerm width height p).1 = destPix height (p.1 / width) (p.1 % width) := rfl

/-- Claim C2: for positive width and height the pixel-index mapping of the
rotation transform is a bijection of the width * height pixel index space
(every source pixel hits exactly one destination pixel, every destination
pixel is written exactly once), and the destination pixel (i, height - 1 - j)
holds the value of source pixel (i, j). -/
theorem pixPerm_bijective (width height : Nat) (hw : 0 < width) (hh : 0 < height) :
    Function.Bijective (pixPerm width height) ∧
    ∀ (src framebuf : Nat → Nat) (j i : Nat), j < height → i < width →
      rotate_image_to_screen src framebuf width height (destPix height j i * 2) =
        src (srcPix width j i * 2) ∧
      rotate_image_to_screen src framebuf width height (destPix height j i * 2 + 1) =
        src (srcPix width j i * 2 + 1) := by
  constructor
  · rw [Fintype.bijective_iff_injective_and_card]
    refine ⟨?_, rfl⟩
    intro p q hpq
    have h := congrArg Fin.val hpq
    rw [pixPerm_val, pixPerm_val] at h
    have hjp : p.1 / width < height := by
      rw [Nat.div_lt_iff_lt_mul hw]
      exact Nat.lt_of_lt_of_le p.2 (Nat.le_of_eq (Nat.mul_comm width height))
    have hjq : q.1 / width < height := by
      rw [Nat.div_lt_iff_lt_mul hw]
      exact Nat.lt_of_lt_of_le q.2 (Nat.le_of_eq (Nat.mul_comm width height))
    obtain ⟨hmod, hdiv⟩ := destPix_inj hjp hjq h
    apply Fin.ext
    rw [← Nat.div_add_mod p.1 width, ← Nat.div_add_mod q.1 width, hmod, hdiv]
  · intro src framebuf j i hj hi
    exact rotate_get src framebuf width height j i hj hi

/-- Witness for claim C2 at width 2, height 3. -/
theorem pixPerm_bijective_witness :
    (0 : Nat) < 2 ∧ (0 : Nat) < 3 ∧ Function.Bijective (pixPerm 2 3) :=
  ⟨by decide, by decide, (pixPerm_bijective 2 3 (by decide) (by decide)).1⟩

/-! ## Claim C3: four rotations compose to the identity -/

/-- Claim C3: rotating four times, swapping the dimension arguments at each
application, restores every byte of every pixel of the original source
buffer. -/
theorem rotate_four_times_id (width height : Nat) (src fb0 fb1 fb2 fb3 : Nat → Nat)
    (j i : Nat) (hj : j < height) (hi : i < width) :
    rotate_image_to_screen
        (rotate_image_to_screen
          (rotate_image_to_screen
            (rotate_image_to_screen src fb0 width height) fb1 height width)
          fb2 width height)
        fb3 height width ((j * width + i) * 2) = src ((j * width + i) * 2) ∧
    rotate_image_to_screen
        (rotate_image_to_screen
          (rotate_image_to_screen
            (rotate_image_to_screen src fb0 width height) fb1 height width)
          fb2 width height)
        fb3 height width ((j * width + i) * 2 + 1) = src ((j * width + i) * 2 + 1) := by
  have h4 := rotate_get
    (rotate_image_to_screen
      (rotate_image_to_screen (rotate_image_to_screen src fb0 width height) fb1 height width)
      fb2 width height)
    fb3 height width ((width - 1) - i) j (by omega) (by omega)
  have h3 := rotate_get
    (rotate_image_to_screen (rotate_image_to_screen src fb0 width height) fb1 height width)
    fb2 width height ((height - 1) - j) ((width - 1) - i) (by omega) (by omega)
  have h2 := rotate_get (rotate_image_to_screen src fb0 width height) fb1 height width
    i ((height - 1) - j) (by omega) (by omega)
  have h1 := rotate_get src fb0 width height j i hj hi
  have e4 : (width - 1) - ((width - 1) - i) = i := by omega
  have e3 : (height - 1) - ((height - 1) - j) = j := by omega
  rw [e4] at h4
  rw [e3] at h3
  constructor
  · rw [h4.1, h3.1, h2.1, h1.1]
  · rw [h4.2, h3.2, h2.2, h1.2]

/-- Witness for claim C3 at width 1, height 1, source value 3 at offset 0. -/
theorem rotate_four_times_id_witness :
    (0 : Nat) < 1 ∧
    rotate_image_to_screen
        (rotate_image_to_screen
          (rotate_image_to_screen
            (rotate_image_to_screen (fun a => a + 3) (fun _ => 0) 1 1) (fun _ => 0) 1 1)
          (fun _ => 0) 1 1)
        (fun _ => 0) 1 1 0 = 3 := by
  refine ⟨by decide, ?_⟩
  have h := (rotate_four_times_id 1 1 (fun a => a + 3) (fun _ => 0) (fun _ => 0) (fun _ => 0)
    (fun _ => 0) 0 0 (by decide) (by decide)).1
  simpa using h

/-! ## Service handle lifecycle (services/hid.rs, services/apt.rs,
services/mcuhwc.rs) -/

/-- The service subsystems with handles covered by the claims: HID input,
APT applet coordination, and the MCU power controller. -/
inductive Subsystem
  | hid
  | apt
  | mcu
deriving DecidableEq

/-- Modelled from the spec: the per-process liveness state of the underlying
service layer, counting the live handles of each subsystem. The enforcing
code lives in the underlying acquisition calls (hidInit, aptInit,
mcuHwcInit), which are outside the provided sources. -/
def ServiceState : Type := Subsystem → Nat

/-- Modelled from the spec: handle acquisition. The acquisition call itself
fails, with an opaque nonzero status busyCode, when a handle for the
subsystem is already live; otherwise it registers the new live handle. -/
def acquire (st : ServiceState) (s : Subsystem) (busyCode : Int) :
    Except Int ServiceState :=
  if st s = 0 then Except.ok (fun t => if t = s then 1 else st t)
  else Except.error busyCode

/-- Modelled from the spec: handle release at scope exit removes the live
handle of the subsystem. -/
def release (st : ServiceState) (s : Subsystem) : ServiceState :=
  fun t => if t = s then st t - 1 else st t

/-- Service states reachable from process start by acquisitions and
releases. -/
inductive Reachable : ServiceState → Prop
  | init : Reachable (fun _ => 0)
  | acquireOk {st : ServiceState} {s : Subsystem} {code : Int} {st' : ServiceState} :
      Reachable st → acquire st s code = Except.ok st' → Reachable st'
  | releaseStep {st : ServiceState} (s : Subsystem) :
      Reachable st → Reachable (release st s)

/-- In every reachable service state each subsystem has at most one live
handle. -/
theorem reachable_le_one {st : ServiceState} (h : Reachable st) (s : Subsystem) :
    st s ≤ 1 := by
  induction h with
  | init => exact Nat.zero_le 1
  | acquireOk hr hacq ih =>
    rename_i st0 s0 code st'
    unfold acquire at hacq
    by_cases h0 : st0 s0 = 0
    · rw [if_pos h0] at hacq
      injection hacq with he
      subst he
      by_cases hss : s = s0
      · simp [hss]
      · simp only [hss, if_false]
        simpa [hss] using ih
    · rw [if_neg h0] at hacq
      exact absurd hacq (by simp)
  | releaseStep s0 hr ih =>
    rename_i st0
    have hrel : release st0 s0 s = if s = s0 then st0 s - 1 else st0 s := by
      simp [release]
    rw [hrel]
    split
    · omega
    · exact ih

/-- Claim C4: while a handle for a subsystem is live in a reachable service
state, a second acquisition fails with the service error instead of
producing a second live handle; after the handle is released a retried
acquisition succeeds; and at most one live handle per subsystem exists at
any time. -/
theorem service_handle_exclusivity {st : ServiceState} (h : Reachable st)
    (s : Subsystem) (busyCode : Int) (hlive : st s ≠ 0) :
    acquire st s busyCode = Except.error busyCode ∧
    (∃ st', acquire (release st s) s busyCode = Except.ok st') ∧
    st s ≤ 1 := by
  refine ⟨?_, ?_, reachable_le_one h s⟩
  · unfold acquire
    rw [if_neg hlive]
  · have h1 : st s ≤ 1 := reachable_le_one h s
    have h0 : release st s s = 0 := by
      have hrel : release st s s = st s - 1 := by simp [release]
      omega
    refine ⟨fun t => if t = s then 1 else release st s t, ?_⟩
    unfold acquire
    rw [if_pos h0]
  
/-- Witness for claim C4: in the reachable state where only the HID handle is
live, a second HID acquisition fails with the busy status. -/
theorem service_handle_exclusivity_witness :
    (fun t => if t = Subsystem.hid then (1 : Nat) else 0) Subsystem.hid ≠ 0 ∧
    acquire (fun t => if t = Subsystem.hid then (1 : Nat) else 0) Subsystem.hid 5 =
      Except.error 5 := by
  have hr : Reachable (fun t => if t = Subsystem.hid then (1 : Nat) else 0) :=
    @Reachable.acquireOk (fun _ => 0) Subsystem.hid 5
      (fun t => if t = Subsystem.hid then (1 : Nat) else 0) Reachable.init rfl
  exact ⟨by decide, (service_handle_exclusivity hr Subsystem.hid 5 (by decide)).1⟩

/-- Modelled from the spec: the status-result conversion of crate::error
(its module is not among the provided sources): a zero status is the success
sentinel, any other status is a failure whose code is preserved verbatim. -/
def resultCode (status : Int) : Except Int Unit :=
  if status = 0 then Except.ok () else Except.error status

/-- Handle to the HID service (struct Hid of services/hid.rs). -/
structure Hid

/-- Handle to the Applet service (struct Apt of services/apt.rs). -/
structure Apt

/-- Handle to the MCU (struct McuHwc of services/mcuhwc.rs). -/
structure McuHwc

/-- Embedding of Hid::new (services/hid.rs, lines 103 to 108): the status
reported by hidInit goes through ResultCode, and on success the handle is
produced. -/
def Hid.new (hidInitStatus : Int) : Except Int Hid :=
  match resultCode hidInitStatus with
  | Except.ok _ => Except.ok {}
  | Except.error e => Except.error e

/-- Embedding of Apt::new (services/apt.rs, lines 32 to 37). -/
def Apt.new (aptInitStatus : Int) : Except Int Apt :=
  match resultCode aptInitStatus with
  | Except.ok _ => Except.ok {}
  | Except.error e => Except.error e

/-- Embedding of McuHwc::new (services/mcuhwc.rs, lines 24 to 29). -/
def McuHwc.new (mcuHwcInitStatus : Int) : Except Int McuHwc :=
  match resultCode mcuHwcInitStatus with
  | Except.ok _ => Except.ok {}
  | Except.error e => Except.error e

/-- Claim C5: for each subsystem acquisition and every status code reported
by the underlying call, a nonzero status yields an error carrying that exact
code and no handle, and a zero status yields a handle. -/
theorem service_new_status (status : Int) :
    (status ≠ 0 →
      Hid.new status = Except.error status ∧
      Apt.new status = Except.error status ∧
      McuHwc.new status = Except.error status) ∧
    (status = 0 →
      Hid.new status = Except.ok {} ∧
      Apt.new status = Except.ok {} ∧
      McuHwc.new status = Except.ok {}) := by
  constructor
  · intro hne
    simp [Hid.new, Apt.new, McuHwc.new, resultCode, hne]
  · intro hz
    simp [Hid.new, Apt.new, McuHwc.new, resultCode, hz]

/-- Witness for claim C5 at the nonzero status 7. -/
theorem service_new_status_witness :
    (7 : Int) ≠ 0 ∧
    (Hid.new 7 = Except.error 7 ∧
      Apt.new 7 = Except.error 7 ∧
      McuHwc.new 7 = Except.error 7) :=
  ⟨by decide, (service_new_status 7).1 (by decide)⟩

/-- Embedding of Apt::set_app_cpu_time_limit (services/apt.rs, lines 79 to
84): the percent argument is handed to APT_SetAppCpuTimeLimit exactly as
given; svc models the status the underlying call reports for each argument
value, and the status goes through ResultCode. -/
def Apt.set_app_cpu_time_limit (_apt : Apt) (svc : Nat → Int) (percent : Nat) :
    Except Int Unit :=
  match resultCode (svc percent) with
  | Except.ok _ => Except.ok ()
  | Except.error e => Except.error e

/-- Claim C10: set_app_cpu_time_limit forwards any percent value, in range or
not, unchanged to the underlying call, performing no range validation of its
own; it succeeds exactly when the underlying status is zero and preserves the
nonzero status verbatim otherwise. -/
theorem set_app_cpu_time_limit_forwards (apt : Apt) (svc : Nat → Int) (percent : Nat) :
    (svc percent = 0 → Apt.set_app_cpu_time_limit apt svc percent = Except.ok ()) ∧
    (svc percent ≠ 0 →
      Apt.set_app_cpu_time_limit apt svc percent = Except.error (svc percent)) := by
  constructor
  · intro hz
    simp [Apt.set_app_cpu_time_limit, resultCode, hz]
  · intro hne
    simp [Apt.set_app_cpu_time_limit, resultCode, hne]

/-- Witness for claim C10 at the out-of-range percent values 200 and 3. -/
theorem set_app_cpu_time_limit_forwards_witness :
    ((fun _ : Nat => (0 : Int)) 200 = 0 ∧
      Apt.set_app_cpu_time_limit {} (fun _ => 0) 200 = Except.ok ()) ∧
    ((fun _ : Nat => (9 : Int)) 3 ≠ 0 ∧
      Apt.set_app_cpu_time_limit {} (fun _ => 9) 3 = Except.error 9) :=
  ⟨⟨rfl, (set_app_cpu_time_limit_forwards {} (fun _ => 0) 200).1 rfl⟩,
   ⟨by decide, (set_app_cpu_time_limit_forwards {} (fun _ => 9) 3).2 (by decide)⟩⟩

/-! ## Claim C6: teardown on scope exit -/

/-- The teardown calls named by the Drop implementations. -/
inductive TeardownCall
  | hidExit
  | aptExit
  | mcuHwcExit
deriving DecidableEq

/-- The matching teardown call of each subsystem. -/
def matchingExit : Subsystem → TeardownCall
  | Subsystem.hid => TeardownCall.hidExit
  | Subsystem.apt => TeardownCall.aptExit
  | Subsystem.mcu => TeardownCall.mcuHwcExit

/-- Embedding of the Drop implementations (services/hid.rs lines 294 to 299,
services/apt.rs lines 87 to 92, services/mcuhwc.rs lines 76 to 81): each
drop body performs exactly the single matching exit call and inspects no
status. -/
def dropBody : Subsystem → List TeardownCall
  | Subsystem.hid => [TeardownCall.hidExit]
  | Subsystem.apt => [TeardownCall.aptExit]
  | Subsystem.mcu => [TeardownCall.mcuHwcExit]

/-- The ways an owning scope can end: normal return, early error
propagation, or unwind. -/
inductive ExitPath
  | normalReturn
  | earlyError (code : Int)
  | unwind

/-- Modelled from the spec: exit of the owning scope of a live handle. On
every exit path the drop glue runs once, appending the drop body teardown
calls to the effect trace, and the scope outcome is the body outcome
unchanged: fn drop returns unit, so the release path has no error channel
and the teardown statuses (statusOf) cannot reach the caller. -/
def scopeExit (s : Subsystem) (body : ExitPath) (trace : List TeardownCall)
    (statusOf : TeardownCall → Int) : ExitPath × List TeardownCall :=
  (body, trace ++ dropBody s)

/-- Claim C6: for every subsystem handle and every way its owning scope ends
(normal return, early error propagation, or unwind), scope exit performs the
matching teardown call exactly once more than the body did, and the outcome
handed to the caller is the body outcome, identical under every assignment
of teardown statuses: a teardown failure is never propagated as an error. -/
theorem drop_teardown_exactly_once (s : Subsystem) (body : ExitPath)
    (trace : List TeardownCall) (statusOf statusOf' : TeardownCall → Int) :
    (scopeExit s body trace statusOf).2.count (matchingExit s) =
      trace.count (matchingExit s) + 1 ∧
    (scopeExit s body trace statusOf).1 = body ∧
    scopeExit s body trace statusOf = scopeExit s body trace statusOf' := by
  refine ⟨?_, rfl, rfl⟩
  cases s <;> simp [scopeExit, dropBody, matchingExit]

/-! ## KeyPad button flags (services/hid.rs)

The named button bits below are modelled from the spec: the fixed enumerated
set of named bits reported by the service layer (the ctru_sys KEY constants,
declared outside the provided sources), each a distinct single bit at its
libctru bit position. -/

def KEY_A : Nat := 2 ^ 0

def KEY_B : Nat := 2 ^ 1

def KEY_SELECT : Nat := 2 ^ 2

def KEY_START : Nat := 2 ^ 3

def KEY_DRIGHT : Nat := 2 ^ 4

def KEY_DLEFT : Nat := 2 ^ 5

def KEY_DUP : Nat := 2 ^ 6

def KEY_DDOWN : Nat := 2 ^ 7

def KEY_R : Nat := 2 ^ 8

def KEY_L : Nat := 2 ^ 9

def KEY_X : Nat := 2 ^ 10

def KEY_Y : Nat := 2 ^ 11

def KEY_ZL : Nat := 2 ^ 14

def KEY_ZR : Nat := 2 ^ 15

def KEY_TOUCH : Nat := 2 ^ 20

def KEY_CSTICK_RIGHT : Nat := 2 ^ 24

def KEY_CSTICK_LEFT : Nat := 2 ^ 25

def KEY_CSTICK_UP : Nat := 2 ^ 26

def KEY_CSTICK_DOWN : Nat := 2 ^ 27

def KEY_CPAD_RIGHT : Nat := 2 ^ 28

def KEY_CPAD_LEFT : Nat := 2 ^ 29

def KEY_CPAD_UP : Nat := 2 ^ 30

def KEY_CPAD_DOWN : Nat := 2 ^ 31

/-! The KeyPad bitflags of services/hid.rs, lines 13 to 75: each named flag
takes the matching ctru_sys constant, and the four convenience directional
values are declared as the stated unions. -/

namespace KeyPad

def A : Nat := KEY_A

def B : Nat := KEY_B

def SELECT : Nat := KEY_SELECT

def START : Nat := KEY_START

def DPAD_RIGHT : Nat := KEY_DRIGHT

def DPAD_LEFT : Nat := KEY_DLEFT

def DPAD_UP : Nat := KEY_DUP

def DPAD_DOWN : Nat := KEY_DDOWN

def R : Nat := KEY_R

def L : Nat := KEY_L

def X : Nat := KEY_X

def Y : Nat := KEY_Y

def ZL : Nat := KEY_ZL

def ZR : Nat := KEY_ZR

def TOUCH : Nat := KEY_TOUCH

def CSTICK_RIGHT : Nat := KEY_CSTICK_RIGHT

def CSTICK_LEFT : Nat := KEY_CSTICK_LEFT

def CSTICK_UP : Nat := KEY_CSTICK_UP

def CSTICK_DOWN : Nat := KEY_CSTICK_DOWN

def CPAD_RIGHT : Nat := KEY_CPAD_RIGHT

def CPAD_LEFT : Nat := KEY_CPAD_LEFT

def CPAD_UP : Nat := KEY_CPAD_UP

def CPAD_DOWN : Nat := KEY_CPAD_DOWN

/-- Convenience direction Up, services/hid.rs line 67. -/
def UP : Nat := DPAD_UP ||| CPAD_UP

/-- Convenience direction Down, services/hid.rs line 69. -/
def DOWN : Nat := DPAD_DOWN ||| CPAD_DOWN

/-- Convenience direction Left, services/hid.rs line 71. -/
def LEFT : Nat := DPAD_LEFT ||| CPAD_LEFT

/-- Convenience direction Right, services/hid.rs line 73. -/
def RIGHT : Nat := DPAD_RIGHT ||| CPAD_RIGHT

/-- The union of every declared KeyPad flag, as computed by the bitflags
crate for from_bits_truncate. -/
def allBits : Nat :=
  A ||| B ||| SELECT ||| START ||| DPAD_RIGHT ||| DPAD_LEFT ||| DPAD_UP ||| DPAD_DOWN |||
  R ||| L ||| X ||| Y ||| ZL ||| ZR ||| TOUCH |||
  CSTICK_RIGHT ||| CSTICK_LEFT ||| CSTICK_UP ||| CSTICK_DOWN |||
  CPAD_RIGHT ||| CPAD_LEFT ||| CPAD_UP ||| CPAD_DOWN |||
  UP ||| DOWN ||| LEFT ||| RIGHT

/-- The from_bits_truncate conversion of the bitflags crate used by the
KeyPad queries of services/hid.rs: keep exactly the declared flag bits of a
raw value and drop the rest. -/
def from_bits_truncate (bits : Nat) : Nat := bits &&& allBits

end KeyPad

/-- Claim C7: each convenience directional value equals the union of the
matching directional-pad bit and circle-pad bit, and those are two distinct
bits, so the value is not an alias of either single bit. -/
theorem keypad_direction_unions :
    (KeyPad.UP = KeyPad.DPAD_UP ||| KeyPad.CPAD_UP ∧
      KeyPad.DOWN = KeyPad.DPAD_DOWN ||| KeyPad.CPAD_DOWN ∧
      KeyPad.LEFT = KeyPad.DPAD_LEFT ||| KeyPad.CPAD_LEFT ∧
      KeyPad.RIGHT = KeyPad.DPAD_RIGHT ||| KeyPad.CPAD_RIGHT) ∧
    (KeyPad.UP ≠ KeyPad.DPAD_UP ∧ KeyPad.UP ≠ KeyPad.CPAD_UP ∧
      KeyPad.DOWN ≠ KeyPad.DPAD_DOWN ∧ KeyPad.DOWN ≠ KeyPad.CPAD_DOWN ∧
      KeyPad.LEFT ≠ KeyPad.DPAD_LEFT ∧ KeyPad.LEFT ≠ KeyPad.CPAD_LEFT ∧
      KeyPad.RIGHT ≠ KeyPad.DPAD_RIGHT ∧ KeyPad.RIGHT ≠ KeyPad.CPAD_RIGHT) := by
  decide

/-! ## Input snapshots and edge detection (services/hid.rs) -/

/-- Modelled from the spec: the raw input snapshots held by the HID service:
the raw 32-bit key state of the current frame and of the previous frame
(edge detection needs exactly these two). -/
structure HidState where
  prev : Nat
  cur : Nat

/-- Embedding of Hid::scan_input (services/hid.rs, lines 131 to 133), with
the underlying hidScanInput latching the raw state r of the new frame: the
current snapshot becomes the previous one. -/
def HidState.scan_input (st : HidState) (r : Nat) : HidState := ⟨st.cur, r⟩

/-- Modelled from the spec: the raw pressed set the underlying service
computes from the two consecutive snapshots (hidKeysDown): in the current
raw state and not in the previous one, complement taken in the 32-bit
word. -/
def hidKeysDown (st : HidState) : Nat := st.cur &&& (st.prev ^^^ (2 ^ 32 - 1))

/-- Modelled from the spec: the raw held set (hidKeysHeld): the current raw
state. -/
def hidKeysHeld (st : HidState) : Nat := st.cur

/-- Modelled from the spec: the raw released set (hidKeysUp): in the
previous raw state and not in the current one, complement taken in the
32-bit word. -/
def hidKeysUp (st : HidState) : Nat := st.prev &&& (st.cur ^^^ (2 ^ 32 - 1))

/-- Embedding of Hid::keys_down (services/hid.rs, lines 158 to 163): the raw
hidKeysDown value through KeyPad::from_bits_truncate. -/
def HidState.keys_down (st : HidState) : Nat := KeyPad.from_bits_truncate (hidKeysDown st)

/-- Embedding of Hid::keys_held (services/hid.rs, lines 188 to 193). -/
def HidState.keys_held (st : HidState) : Nat := KeyPad.from_bits_truncate (hidKeysHeld st)

/-- Embedding of Hid::keys_up (services/hid.rs, lines 218 to 223). -/
def HidState.keys_up (st : HidState) : Nat := KeyPad.from_bits_truncate (hidKeysUp st)

/-- Frame 1 of the test sequence of the spec: raw state A from the initial
all-clear snapshots. -/
def frame1 : HidState := HidState.scan_input ⟨0, 0⟩ KeyPad.A

/-- Frame 2 of the test sequence: raw state A or B. -/
def frame2 : HidState := HidState.scan_input frame1 (KeyPad.A ||| KeyPad.B)

/-- Frame 3 of the test sequence: raw state B. -/
def frame3 : HidState := HidState.scan_input frame2 KeyPad.B

/-- Helper Boolean identity for masking. -/
theorem bool_and_or_self (a b : Bool) : ((a && b) || b) = b := by
  cases a <;> cases b <;> rfl

/-- Claim C8: over every pair of consecutive raw snapshots, a defined key
bit is in keys_down exactly when it is in the current raw state and not in
the previous one, in keys_held exactly when it is in the current one, and in
keys_up exactly when it is in the previous and not the current; and on the
raw sequence A, then A with B, then B, frame 2 yields pressed B and held A
with B, and frame 3 yields released A. -/
theorem edge_detection_semantics (st : HidState) (b : Nat)
    (hb : KeyPad.allBits.testBit b = true) :
    ((st.keys_down).testBit b = (st.cur.testBit b && !st.prev.testBit b) ∧
      (st.keys_held).testBit b = st.cur.testBit b ∧
      (st.keys_up).testBit b = (st.prev.testBit b && !st.cur.testBit b)) ∧
    (frame2.keys_down = KeyPad.B ∧
      frame2.keys_held = (KeyPad.A ||| KeyPad.B) ∧
      frame3.keys_up = KeyPad.A) := by
  have hb32 : b < 32 := by
    by_contra hge
    have h1 : KeyPad.allBits < 2 ^ 32 := by decide
    have h2 : (2 : Nat) ^ 32 ≤ 2 ^ b := Nat.pow_le_pow_right (by decide) (by omega)
    have h3 : KeyPad.allBits.testBit b = false :=
      Nat.testBit_lt_two_pow (Nat.lt_of_lt_of_le h1 h2)
    rw [hb] at h3
    exact Bool.noConfusion h3
  refine ⟨⟨?_, ?_, ?_⟩, by decide, by decide, by decide⟩
  · simp only [HidState.keys_down, KeyPad.from_bits_truncate, hidKeysDown,
      Nat.testBit_and, Nat.testBit_xor, Nat.testBit_two_pow_sub_one, hb, Bool.and_true]
    simp [hb32]
  · simp only [HidState.keys_held, KeyPad.from_bits_truncate, hidKeysHeld,
      Nat.testBit_and, hb, Bool.and_true]
  · simp only [HidState.keys_up, KeyPad.from_bits_truncate, hidKeysUp,
      Nat.testBit_and, Nat.testBit_xor, Nat.testBit_two_pow_sub_one, hb, Bool.and_true]
    simp [hb32]

/-- Witness for claim C8 at the snapshot pair prev 1, cur 2 and the defined
bit 1 (the B button). -/
theorem edge_detection_semantics_witness :
    KeyPad.allBits.testBit 1 = true ∧
    (HidState.mk 1 2).keys_down.testBit 1 =
      ((2 : Nat).testBit 1 && !(1 : Nat).testBit 1) :=
  ⟨by decide, ((edge_detection_semantics ⟨1, 2⟩ 1 (by decide)).1).1⟩

/-- Claim C9: each of keys_down, keys_held and keys_up returns exactly the
bits of the raw service value that belong to the defined KeyPad set: bits
outside the defined flags are dropped, and every returned value is a subset
of the defined flags. -/
theorem keys_truncate_to_defined (st : HidState) :
    (st.keys_down ||| KeyPad.allBits = KeyPad.allBits ∧
      st.keys_held ||| KeyPad.allBits = KeyPad.allBits ∧
      st.keys_up ||| KeyPad.allBits = KeyPad.allBits) ∧
    (∀ b,
      (st.keys_down).testBit b = ((hidKeysDown st).testBit b && KeyPad.allBits.testBit b) ∧
      (st.keys_held).testBit b = ((hidKeysHeld st).testBit b && KeyPad.allBits.testBit b) ∧
      (st.keys_up).testBit b = ((hidKeysUp st).testBit b && KeyPad.allBits.testBit b)) := by
  have hsub : ∀ x : Nat, (x &&& KeyPad.allBits) ||| KeyPad.allBits = KeyPad.allBits := by
    intro x
    apply Nat.eq_of_testBit_eq
    intro i
    simp [Nat.testBit_or, Nat.testBit_and, bool_and_or_self]
  refine ⟨⟨hsub _, hsub _, hsub _⟩, fun b => ⟨?_, ?_, ?_⟩⟩
  · simp [HidState.keys_down, KeyPad.from_bits_truncate, Nat.testBit_and]
  · simp [HidState.keys_held, KeyPad.from_bits_truncate, Nat.testBit_and]
  · simp [HidState.keys_up, KeyPad.from_bits_truncate, Nat.testBit_and]
